import Mathlib

/-!
Verification of the QDF-GTFS native engine (src/GTFS.h, src/gtfs_parser.cpp,
src/gtfs_realtime.cpp, src/addon.cpp) against its specification.

The C++ data structures and operations are shallowly embedded:

* `StringPool` (GTFS.h 18-60) becomes a `List String` (the `id_to_str`
  vector); `str_to_id` is the derived first-occurrence lookup.  Interned ids
  are `Nat` truncated to 32 bits exactly where the C++ casts to `uint32_t`.
* `std::unordered_map` tables become functions into `Option`.
* `std::sort` over `stop_times` (gtfs_parser.cpp 1219-1223) is modelled by
  `List.insertionSort` with the relation induced by the source comparator:
  a C++ sort with strict comparator `cmp` leaves the array pairwise ordered
  by `fun a b => ¬ cmp b a`, proved here as `not_stLt_iff_stLe`.
* Concurrency is not modelled: the string pool's lock discipline makes every
  interleaving equivalent to some sequential order of `intern` calls, and all
  claims below are about the sequential semantics.
-/

namespace QDFGTFS

/-- Sentinel returned by `StringPool::get_id` for a string that was never
interned (GTFS.h line 58, `0xFFFFFFFF`). -/
def NOT_FOUND : Nat := 4294967295

/-- Modulus of the `uint32_t` id space used by `StringPool`. -/
def U32_MOD : Nat := 4294967296

/-! ## StringPool (GTFS.h lines 18-60) -/

/-- The `str_to_id` map of `StringPool`, derived from the `id_to_str` vector:
index of the first occurrence of `s`, if any. -/
def strToId : List String → String → Option Nat
  | [], _ => none
  | x :: rest, s => if x = s then some 0 else (strToId rest s).map (· + 1)

/-- `StringPool::intern` (GTFS.h lines 29-41): the existing id on a hit;
otherwise the next sequential id (`id_to_str.size()` cast to `uint32_t`)
with the string appended.  Returns the id and the updated pool. -/
def intern (pool : List String) (s : String) : Nat × List String :=
  match strToId pool s with
  | some i => (i % U32_MOD, pool)
  | none => (pool.length % U32_MOD, pool ++ [s])

/-- `StringPool::get` (GTFS.h lines 43-47): the stored string, or `""` when
the id is out of range. -/
def poolGet (pool : List String) (id : Nat) : String :=
  if id < pool.length then pool.getD id "" else ""

/-- `StringPool::get_id` (GTFS.h lines 55-59): read-only lookup, `NOT_FOUND`
sentinel on a miss. -/
def getId (pool : List String) (s : String) : Nat :=
  match strToId pool s with
  | some i => i % U32_MOD
  | none => NOT_FOUND

theorem strToId_eq_none_iff (p : List String) (s : String) :
    strToId p s = none ↔ s ∉ p := by
  induction p with
  | nil => simp [strToId]
  | cons x rest ih =>
    by_cases hx : x = s
    · subst hx
      simp [strToId]
    · rw [List.mem_cons, strToId, if_neg hx, Option.map_eq_none', ih]
      simp only [not_or]
      constructor
      · intro h
        exact ⟨fun he => hx he.symm, h⟩
      · intro h
        exact h.2

theorem strToId_bound_getD (p : List String) (s : String) (i : Nat)
    (h : strToId p s = some i) : i < p.length ∧ p.getD i "" = s := by
  induction p generalizing i with
  | nil => simp [strToId] at h
  | cons x rest ih =>
    by_cases hx : x = s
    · subst hx
      simp [strToId] at h
      subst h
      simp
    · simp only [strToId, if_neg hx] at h
      cases hrec : strToId rest s with
      | none => rw [hrec] at h; simp at h
      | some j =>
        rw [hrec] at h
        simp only [Option.map_some', Option.some.injEq] at h
        obtain ⟨hj1, hj2⟩ := ih j hrec
        subst h
        refine ⟨by simpa using Nat.succ_lt_succ hj1, by simpa using hj2⟩

theorem strToId_append_of_some (p : List String) (s t : String) (i : Nat)
    (h : strToId p s = some i) : strToId (p ++ [t]) s = some i := by
  induction p generalizing i with
  | nil => simp [strToId] at h
  | cons x rest ih =>
    rw [List.cons_append]
    by_cases hx : x = s
    · subst hx
      simp [strToId] at h ⊢
      omega
    · simp only [strToId, if_neg hx] at h ⊢
      cases hrec : strToId rest s with
      | none => rw [hrec] at h; simp at h
      | some j =>
        rw [hrec] at h
        simp only [Option.map_some', Option.some.injEq] at h
        rw [ih j hrec]
        simp [h]

theorem strToId_append_self (p : List String) (s : String)
    (h : strToId p s = none) : strToId (p ++ [s]) s = some p.length := by
  induction p with
  | nil => simp [strToId]
  | cons x rest ih =>
    rw [List.cons_append]
    by_cases hx : x = s
    · subst hx; simp [strToId] at h
    · simp only [strToId, if_neg hx] at h ⊢
      cases hrec : strToId rest s with
      | none =>
        rw [ih hrec]
        simp [List.length_cons]
      | some j => rw [hrec] at h; simp at h

theorem intern_cases (p : List String) (s : String) :
    (∃ i, strToId p s = some i ∧ intern p s = (i % U32_MOD, p)) ∨
    (strToId p s = none ∧ intern p s = (p.length % U32_MOD, p ++ [s])) := by
  cases h : strToId p s with
  | some i => exact Or.inl ⟨i, rfl, by simp [intern, h]⟩
  | none => exact Or.inr ⟨rfl, by simp [intern, h]⟩

/-- C8: for every pair of strings s and t: intern(s) called twice returns the
same id; intern(s) and intern(t) return different ids when s differs from t;
get(intern(s)) returns s; and get_id on a string never interned returns the
distinguishable NOT_FOUND sentinel rather than any assigned id.  The pool is
assumed small enough that the uint32 truncation is the identity (every real
pool is: NOT_FOUND ids would need 2^32 interned strings). -/
theorem c8_string_pool_algebra (p : List String) (s t : String)
    (hlen : p.length + 2 ≤ NOT_FOUND) (hst : s ≠ t) :
    (intern (intern p s).2 s).1 = (intern p s).1
    ∧ (intern (intern p s).2 t).1 ≠ (intern p s).1
    ∧ poolGet (intern p s).2 (intern p s).1 = s
    ∧ (s ∉ p → getId p s = NOT_FOUND)
    ∧ (∀ u ∈ p, getId p u ≠ NOT_FOUND) := by
  have hNF : NOT_FOUND = 4294967295 := rfl
  have hM : U32_MOD = 4294967296 := rfl
  have hmiss : s ∉ p → getId p s = NOT_FOUND := by
    intro hns
    have h0 : strToId p s = none := (strToId_eq_none_iff p s).mpr hns
    simp [getId, h0]
  have hhit : ∀ u ∈ p, getId p u ≠ NOT_FOUND := by
    intro u hu
    cases h0 : strToId p u with
    | none => exact absurd ((strToId_eq_none_iff p u).mp h0) (by simp [hu])
    | some j =>
      have hb := strToId_bound_getD p u j h0
      have hj : j % U32_MOD = j := Nat.mod_eq_of_lt (by omega)
      simp only [getId, h0, hj]
      omega
  rcases intern_cases p s with ⟨i, hi, heq⟩ | ⟨hi, heq⟩
  · -- s was already interned: the pool is unchanged
    obtain ⟨hilt, hgd⟩ := strToId_bound_getD p s i hi
    have hiM : i % U32_MOD = i := Nat.mod_eq_of_lt (by omega)
    refine ⟨?_, ?_, ?_, hmiss, hhit⟩
    · simp [heq, intern, hi]
    · rcases intern_cases p t with ⟨j, hj, heqt⟩ | ⟨hj, heqt⟩
      · obtain ⟨hjlt, hgdj⟩ := strToId_bound_getD p t j hj
        have hjM : j % U32_MOD = j := Nat.mod_eq_of_lt (by omega)
        have hij : i ≠ j := by
          intro hcontra
          exact hst (by rw [← hgd, hcontra, hgdj])
        simp [heq, heqt, hiM, hjM]
        omega
      · have hlM : p.length % U32_MOD = p.length := Nat.mod_eq_of_lt (by omega)
        simp [heq, heqt, hiM, hlM]
        omega
    · simp only [heq, poolGet, hiM]
      rw [if_pos hilt]
      exact hgd
  · -- s is fresh: it is appended with id = old size
    have hself : strToId (p ++ [s]) s = some p.length := strToId_append_self p s hi
    have hlM : p.length % U32_MOD = p.length := Nat.mod_eq_of_lt (by omega)
    refine ⟨?_, ?_, ?_, hmiss, hhit⟩
    · rw [heq]
      simp [intern, hself]
    · rcases intern_cases (p ++ [s]) t with ⟨j, hj, heqt⟩ | ⟨hj, heqt⟩
      · obtain ⟨hjlt, hgdj⟩ := strToId_bound_getD (p ++ [s]) t j hj
        obtain ⟨hslt, hgds⟩ := strToId_bound_getD (p ++ [s]) s p.length hself
        have hjlt2 : j < p.length + 1 := by simpa using hjlt
        have hjM : j % U32_MOD = j := Nat.mod_eq_of_lt (by omega)
        have hij : j ≠ p.length := by
          intro hcontra
          exact hst (by rw [← hgds, ← hcontra, hgdj])
        simp [heq, heqt, hjM, hlM]
        omega
      · have hl1M : (p.length + 1) % U32_MOD = p.length + 1 :=
          Nat.mod_eq_of_lt (by omega)
        simp [heq, heqt, hl1M, hlM]
    · obtain ⟨hslt, hgds⟩ := strToId_bound_getD (p ++ [s]) s p.length hself
      simp only [heq, poolGet, hlM]
      rw [if_pos hslt]
      exact hgds

theorem c8_string_pool_algebra_witness :
    ((["a"] : List String).length + 2 ≤ NOT_FOUND ∧ ("b" : String) ≠ "c")
    ∧ ((intern (intern ["a"] "b").2 "b").1 = (intern ["a"] "b").1
       ∧ (intern (intern ["a"] "b").2 "c").1 ≠ (intern ["a"] "b").1
       ∧ poolGet (intern ["a"] "b").2 (intern ["a"] "b").1 = "b"
       ∧ ("b" ∉ (["a"] : List String) → getId ["a"] "b" = NOT_FOUND)
       ∧ (∀ u ∈ (["a"] : List String), getId ["a"] u ≠ NOT_FOUND)) :=
  ⟨⟨by decide, by decide⟩, c8_string_pool_algebra ["a"] "b" "c" (by decide) (by decide)⟩

/-! ## StopTime records and the finalize-step sort (gtfs_parser.cpp 1214-1228)

Only the fields that the sort, the index build and the query read are
modelled; interned ids are `Nat`, the optional arrival/departure seconds are
`Option Int` (GTFS.h lines 126-139, `std::optional<int>`). -/

structure StopTime where
  trip_id : Nat
  arrival_time : Option Int
  departure_time : Option Int
  stop_id : Nat
  stop_sequence : Int
  deriving DecidableEq

/-- The strict comparator passed to `std::sort` in gtfs_parser.cpp lines
1220-1223: trip_id first, then stop_sequence. -/
def stLt (a b : StopTime) : Prop :=
  a.trip_id < b.trip_id ∨ (a.trip_id = b.trip_id ∧ a.stop_sequence < b.stop_sequence)

/-- The non-strict order induced by `stLt`: `std::sort` with strict
comparator `cmp` leaves adjacent elements with `¬ cmp b a`. -/
def stLe (a b : StopTime) : Prop :=
  a.trip_id < b.trip_id ∨ (a.trip_id = b.trip_id ∧ a.stop_sequence ≤ b.stop_sequence)

instance : DecidableRel stLt := fun a b => by unfold stLt; infer_instance

instance : DecidableRel stLe := fun a b => by unfold stLe; infer_instance

instance : IsTotal StopTime stLe := ⟨by intro a b; unfold stLe; omega⟩

instance : IsTrans StopTime stLe := ⟨by intro a b c; unfold stLe; omega⟩

theorem not_stLt_iff_stLe (a b : StopTime) : ¬ stLt b a ↔ stLe a b := by
  unfold stLt stLe; omega

/-- The finalize-step sort of the concatenated stop_times array
(gtfs_parser.cpp 1219-1223), modelled by a sorting function: the claims
below are about the order invariant of the output, which any correct
`std::sort` call establishes. -/
def sortStopTimes (l : List StopTime) : List StopTime := List.insertionSort stLe l

theorem sortStopTimes_sorted (l : List StopTime) :
    List.Sorted stLe (sortStopTimes l) := List.sorted_insertionSort stLe l

/-- C2: after load_feeds the stop_times array is totally ordered: for every
adjacent pair, interned trip_id of entry i is at most that of entry i+1, and
on equal trip_ids stop_sequence of entry i is at most that of entry i+1. -/
theorem c2_stop_times_sorted_after_load (l : List StopTime) (i : Nat)
    (h : i + 1 < (sortStopTimes l).length) :
    ((sortStopTimes l).get ⟨i, by omega⟩).trip_id
        ≤ ((sortStopTimes l).get ⟨i + 1, h⟩).trip_id
    ∧ (((sortStopTimes l).get ⟨i, by omega⟩).trip_id
          = ((sortStopTimes l).get ⟨i + 1, h⟩).trip_id →
        ((sortStopTimes l).get ⟨i, by omega⟩).stop_sequence
          ≤ ((sortStopTimes l).get ⟨i + 1, h⟩).stop_sequence) := by
  have hs : List.Pairwise stLe (sortStopTimes l) := sortStopTimes_sorted l
  have hrel := List.pairwise_iff_get.mp hs ⟨i, by omega⟩ ⟨i + 1, h⟩
    (by simp [Fin.lt_def])
  unfold stLe at hrel
  exact ⟨by omega, fun heq => by omega⟩

def stEx1 : StopTime := ⟨2, some 30, some 40, 7, 1⟩

def stEx2 : StopTime := ⟨1, none, some 10, 5, 2⟩

theorem c2_stop_times_sorted_after_load_witness :
    (0 + 1 < (sortStopTimes [stEx1, stEx2]).length)
    ∧ (((sortStopTimes [stEx1, stEx2]).get ⟨0, by decide⟩).trip_id
          ≤ ((sortStopTimes [stEx1, stEx2]).get ⟨1, by decide⟩).trip_id
       ∧ (((sortStopTimes [stEx1, stEx2]).get ⟨0, by decide⟩).trip_id
             = ((sortStopTimes [stEx1, stEx2]).get ⟨1, by decide⟩).trip_id →
           ((sortStopTimes [stEx1, stEx2]).get ⟨0, by decide⟩).stop_sequence
             ≤ ((sortStopTimes [stEx1, stEx2]).get ⟨1, by decide⟩).stop_sequence)) :=
  ⟨by decide, c2_stop_times_sorted_after_load [stEx1, stEx2] 0 (by decide)⟩

/-! ## Inverted stop_id index (gtfs_parser.cpp 1226-1228)

The loop `for i in 0..n-1: index[stop_times[i].stop_id].push_back(i)`
appends positions in increasing order; `stopIndexFrom l n sid` is the bucket
of `sid` produced from the suffix `l` whose first element has position `n`. -/

def stopIndexFrom : List StopTime → Nat → Nat → List Nat
  | [], _, _ => []
  | st :: rest, i, sid =>
    (if st.stop_id = sid then [i] else []) ++ stopIndexFrom rest (i + 1) sid

/-- The `stop_times_by_stop_id` bucket of `sid` for the full array `l`. -/
def buildStopIndex (l : List StopTime) (sid : Nat) : List Nat :=
  stopIndexFrom l 0 sid

theorem mem_stopIndexFrom (l : List StopTime) (sid : Nat) :
    ∀ n p, p ∈ stopIndexFrom l n sid ↔
      ∃ j, ∃ hj : j < l.length, n + j = p ∧ (l.get ⟨j, hj⟩).stop_id = sid := by
  induction l with
  | nil => intro n p; simp [stopIndexFrom]
  | cons st rest ih =>
    intro n p
    constructor
    · intro hp
      simp only [stopIndexFrom, List.mem_append] at hp
      rcases hp with hp | hp
      · by_cases hsid : st.stop_id = sid
        · rw [if_pos hsid] at hp
          simp only [List.mem_singleton] at hp
          refine ⟨0, by simp, by omega, ?_⟩
          simpa using hsid
        · rw [if_neg hsid] at hp; simp at hp
      · rcases (ih (n + 1) p).mp hp with ⟨j, hj, hjp, hjs⟩
        refine ⟨j + 1, by simpa using Nat.succ_lt_succ hj, by omega, ?_⟩
        simpa using hjs
    · rintro ⟨j, hj, hjp, hjs⟩
      simp only [stopIndexFrom, List.mem_append]
      cases j with
      | zero =>
        left
        have hsid : st.stop_id = sid := by simpa using hjs
        rw [if_pos hsid]
        simp only [List.mem_singleton]
        omega
      | succ j2 =>
        right
        refine (ih (n + 1) p).mpr
          ⟨j2, by simpa using Nat.lt_of_succ_lt_succ hj, by omega, ?_⟩
        simpa using hjs

theorem stopIndexFrom_pairwise (l : List StopTime) (sid : Nat) :
    ∀ n, List.Pairwise (· < ·) (stopIndexFrom l n sid) := by
  induction l with
  | nil => intro n; simp [stopIndexFrom]
  | cons st rest ih =>
    intro n
    by_cases hsid : st.stop_id = sid
    · simp only [stopIndexFrom, if_pos hsid, List.singleton_append]
      rw [List.pairwise_cons]
      refine ⟨?_, ih (n + 1)⟩
      intro m hm
      rcases (mem_stopIndexFrom rest sid (n + 1) m).mp hm with ⟨j, hj, hjp, _⟩
      omega
    · simp only [stopIndexFrom, if_neg hsid, List.nil_append]
      exact ih (n + 1)

/-- C3: after load_feeds, every record's position in the (sorted) stop_times
array appears in the inverted-index bucket of its interned stop_id, and each
bucket lists positions in the sorted array's order (strictly increasing). -/
theorem c3_stop_index_complete_and_ordered (l0 : List StopTime) (sid : Nat) :
    (∀ p (hp : p < (sortStopTimes l0).length),
       p ∈ buildStopIndex (sortStopTimes l0)
             (((sortStopTimes l0).get ⟨p, hp⟩).stop_id))
    ∧ List.Pairwise (· < ·) (buildStopIndex (sortStopTimes l0) sid) := by
  refine ⟨?_, stopIndexFrom_pairwise _ sid 0⟩
  intro p hp
  exact (mem_stopIndexFrom (sortStopTimes l0) _ 0 p).mpr ⟨p, hp, by omega, rfl⟩

theorem c3_stop_index_complete_and_ordered_witness :
    (0 ∈ buildStopIndex (sortStopTimes [stEx1])
           (((sortStopTimes [stEx1]).get ⟨0, by decide⟩).stop_id))
    ∧ List.Pairwise (· < ·) (buildStopIndex (sortStopTimes [stEx1]) 7) :=
  ⟨(c3_stop_index_complete_and_ordered [stEx1] 7).1 0 (by decide),
   (c3_stop_index_complete_and_ordered [stEx1] 7).2⟩

/-! ## Keyed-table merge strategies (gtfs_parser.cpp)

Every keyed entity parser repeats the same three lines on each row, e.g.
parse_routes lines 375-378 and parse_stops lines 534-537:

  if (merge_strategy == 1 && table.count(key)) continue;
  if (merge_strategy == 2 && table.count(key)) throw runtime_error("Duplicate <table>: " + key);
  table[key] = record;

`keyedMergeInsert` embeds that pattern for a table modelled as a function
into `Option`; `Except` carries the thrown `std::runtime_error` message. -/

def keyedMergeInsert {V : Type} (tableName : String) (merge_strategy : Nat)
    (table : String → Option V) (key : String) (v : V) :
    Except String (String → Option V) :=
  if merge_strategy = 1 ∧ (table key).isSome then .ok table
  else if merge_strategy = 2 ∧ (table key).isSome then
    .error ("Duplicate " ++ tableName ++ ": " ++ key)
  else .ok (fun k => if k = key then some v else table k)

/-- The per-row insert of parse_routes (gtfs_parser.cpp 375-378). -/
def routesMergeInsert {V : Type} : Nat → (String → Option V) → String → V →
    Except String (String → Option V) := keyedMergeInsert "route"

/-- The per-row insert of parse_stops (gtfs_parser.cpp 534-537). -/
def stopsMergeInsert {V : Type} : Nat → (String → Option V) → String → V →
    Except String (String → Option V) := keyedMergeInsert "stop"

/-- Loading the same key twice within one load: the second row meets the
merge-strategy check against the record stored by the first. -/
def insertTwice {V : Type} (tableName : String) (merge_strategy : Nat)
    (table : String → Option V) (k : String) (v1 v2 : V) :
    Except String (String → Option V) :=
  match keyedMergeInsert tableName merge_strategy table k v1 with
  | .ok t1 => keyedMergeInsert tableName merge_strategy t1 k v2
  | .error e => .error e

/-- C4: loading the same key K twice into a keyed table follows the selected
merge strategy: SKIP (1) keeps the first-seen record and discards the new
row, OVERWRITE (0) silently replaces it with the newest record, and STRICT
(2) fails immediately with an error naming the table and the key K. -/
theorem c4_keyed_merge_strategies {V : Type} (tableName : String)
    (table : String → Option V) (k : String) (v1 v2 : V)
    (hfresh : table k = none) :
    (∃ t2, insertTwice tableName 1 table k v1 v2 = .ok t2 ∧ t2 k = some v1)
    ∧ (∃ t2, insertTwice tableName 0 table k v1 v2 = .ok t2 ∧ t2 k = some v2)
    ∧ insertTwice tableName 2 table k v1 v2
        = .error ("Duplicate " ++ tableName ++ ": " ++ k) := by
  refine ⟨⟨fun key => if key = k then some v1 else table key, ?_, by simp⟩,
          ⟨fun key => if key = k then some v2
                      else if key = k then some v1 else table key, ?_, by simp⟩,
          ?_⟩ <;>
    simp [insertTwice, keyedMergeInsert, hfresh]

theorem c4_keyed_merge_strategies_witness :
    ((fun _ : String => (none : Option Nat)) "R1" = none)
    ∧ ((∃ t2, insertTwice "route" 1 (fun _ : String => (none : Option Nat)) "R1" 1 2 = .ok t2
          ∧ t2 "R1" = some 1)
       ∧ (∃ t2, insertTwice "route" 0 (fun _ : String => (none : Option Nat)) "R1" 1 2 = .ok t2
          ∧ t2 "R1" = some 2)
       ∧ insertTwice "route" 2 (fun _ : String => (none : Option Nat)) "R1" 1 2
           = .error ("Duplicate " ++ "route" ++ ": " ++ "R1")) :=
  ⟨rfl, c4_keyed_merge_strategies "route" (fun _ => none) "R1" 1 2 rfl⟩

/-! ## calendar_dates insertion (gtfs_parser.cpp 798-840)

parse_calendar_dates receives the merge_strategy parameter like every other
table parser, but its row handler (line 834) assigns unconditionally:

  data.calendar_dates[feed_id][service_id][date] = exc;

There is no SKIP/STRICT check against an existing (service_id, date) entry. -/

def calendarDatesInsert (merge_strategy : Nat)
    (m : String → String → String → Option Int)
    (feed_id service_id date : String) (exc : Int) :
    String → String → String → Option Int :=
  fun f s d =>
    if f = feed_id ∧ s = service_id ∧ d = date then some exc else m f s d

/-- C5 counterexample: under SKIP (strategy 1) a duplicate
(service_id, date) does NOT keep the first exception_type — the newest value
replaces it, contradicting the claim that the merge strategy applies
uniformly to the nested calendar_dates map. -/
theorem c5_counterexample :
    calendarDatesInsert 1
      (calendarDatesInsert 1 (fun _ _ _ => none) "f" "S" "20240101" 1)
      "f" "S" "20240101" 2 "f" "S" "20240101" = some 2
    ∧ (some (2 : Int) ≠ some 1) := by
  constructor
  · rfl
  · simp

/-- C5 amended: parse_calendar_dates ignores the merge strategy: a duplicate
(service_id, date) key always takes the newest exception_type (last write
wins) under every strategy, and the insertion can never fail the load. -/
theorem c5_calendar_dates_last_write_wins (merge_strategy : Nat)
    (m : String → String → String → Option Int)
    (f s d : String) (e1 e2 : Int) :
    calendarDatesInsert merge_strategy
      (calendarDatesInsert merge_strategy m f s d e1) f s d e2 f s d
      = some e2 := by
  simp [calendarDatesInsert]

/-! ## The loaded dataset as seen by the query engine (GTFS.h / addon.cpp)

The query engine of addon.cpp works against the older two-level
`calendar_dates` layout of GTFS.h line 265 (`service_id → date →
exception_type`); Trip and Calendar keep only the fields GetStopTimes and
CheckServiceActiveLogic read. -/

structure Trip where
  route_id : String
  service_id : String
  trip_id : String
  deriving DecidableEq

structure Calendar where
  service_id : String
  monday : Bool
  tuesday : Bool
  wednesday : Bool
  thursday : Bool
  friday : Bool
  saturday : Bool
  sunday : Bool
  start_date : String
  end_date : String
  deriving DecidableEq

structure GTFSData where
  string_pool : List String
  stop_times : List StopTime
  stop_times_by_stop_id : Nat → List Nat
  trips : String → Option Trip
  calendars : String → Option Calendar
  calendar_dates : String → Option (String → Option Int)

/-! ## CheckServiceActiveLogic (addon.cpp lines 141-168) -/

/-- The weekly-calendar block of CheckServiceActiveLogic (addon.cpp lines
151-166): date range test by string comparison, then the switch on wday. -/
def checkWeeklyCalendar (data : GTFSData) (service_id date_str : String)
    (wday : Int) : Bool :=
  match data.calendars service_id with
  | some cal =>
    if date_str < cal.start_date ∨ date_str > cal.end_date then false
    else if wday = 0 then cal.sunday
    else if wday = 1 then cal.monday
    else if wday = 2 then cal.tuesday
    else if wday = 3 then cal.wednesday
    else if wday = 4 then cal.thursday
    else if wday = 5 then cal.friday
    else if wday = 6 then cal.saturday
    else false
  | none => false

/-- CheckServiceActiveLogic (addon.cpp lines 141-168): calendar_dates
exception first (1 forces active, 2 forces inactive, anything else falls
through), then the weekly calendar, else inactive. -/
def checkServiceActiveLogic (data : GTFSData) (service_id date_str : String)
    (wday : Int) : Bool :=
  match data.calendar_dates service_id with
  | some dates =>
    match dates date_str with
    | some e =>
      if e = 1 then true
      else if e = 2 then false
      else checkWeeklyCalendar data service_id date_str wday
    | none => checkWeeklyCalendar data service_id date_str wday
  | none => checkWeeklyCalendar data service_id date_str wday

/-- The calendar_dates exception recorded for (S, D), if any. -/
def calendarException (data : GTFSData) (S D : String) : Option Int :=
  (data.calendar_dates S).bind (fun dates => dates D)

/-- The weekday flag of a weekly calendar, indexed 0=Sunday .. 6=Saturday. -/
def weekdayFlag (cal : Calendar) (w : Int) : Bool :=
  [cal.sunday, cal.monday, cal.tuesday, cal.wednesday, cal.thursday,
   cal.friday, cal.saturday].getD w.toNat false

/-- The spec's wording of the weekly rule: active iff D lies in
[start_date, end_date] and the weekday flag for W(D) is set. -/
def specWeeklyActive (data : GTFSData) (S D : String) (w : Int) : Bool :=
  match data.calendars S with
  | some cal =>
    decide (cal.start_date ≤ D ∧ D ≤ cal.end_date) && weekdayFlag cal w
  | none => false

/-- The spec's wording of the whole date-filter algorithm (spec.md 4.6). -/
def specServiceActive (data : GTFSData) (S D : String) (w : Int) : Bool :=
  let exc := calendarException data S D
  if exc = some 1 then true
  else if exc = some 2 then false
  else specWeeklyActive data S D w

theorem checkWeeklyCalendar_eq_spec (data : GTFSData) (S D : String)
    (w : Int) (h0 : 0 ≤ w) (h6 : w ≤ 6) :
    checkWeeklyCalendar data S D w = specWeeklyActive data S D w := by
  unfold checkWeeklyCalendar specWeeklyActive
  cases hc : data.calendars S with
  | none => rfl
  | some cal =>
    simp only
    by_cases hin : D < cal.start_date ∨ D > cal.end_date
    · rw [if_pos hin]
      have hnot : ¬(cal.start_date ≤ D ∧ D ≤ cal.end_date) := by
        rcases hin with h | h
        · exact fun hcontra => absurd hcontra.1 (not_le.mpr h)
        · exact fun hcontra => absurd hcontra.2 (not_le.mpr h)
      rw [decide_eq_false hnot, Bool.false_and]
    · rw [if_neg hin]
      push_neg at hin
      simp only [decide_eq_true_eq, hin.1, hin.2, and_self, decide_True,
        Bool.true_and]
      have hw : w = 0 ∨ w = 1 ∨ w = 2 ∨ w = 3 ∨ w = 4 ∨ w = 5 ∨ w = 6 := by
        omega
      rcases hw with h | h | h | h | h | h | h <;> subst h <;>
        simp [weekdayFlag]

/-- C6: for every service_id S, date D and weekday W(D) in 0..6, the
service-active decision is: a calendar_dates exception of type 1 forces
active and type 2 forces inactive with any other value falling through;
otherwise a weekly calendar makes S active iff D lies in
[start_date, end_date] and the weekday flag for W(D) is set; otherwise S is
inactive. -/
theorem c6_service_active_decision (data : GTFSData) (S D : String) (w : Int)
    (h0 : 0 ≤ w) (h6 : w ≤ 6) :
    checkServiceActiveLogic data S D w = specServiceActive data S D w := by
  have hweek := checkWeeklyCalendar_eq_spec data S D w h0 h6
  unfold checkServiceActiveLogic specServiceActive calendarException
  cases hcd : data.calendar_dates S with
  | none => simp [hweek]
  | some dates =>
    cases hd : dates D with
    | none => simp [hd, hweek]
    | some e =>
      by_cases he1 : e = 1
      · subst he1; simp [hd]
      · by_cases he2 : e = 2
        · subst he2; simp [hd]
        · simp [hd, he1, he2, hweek]

def calEx1 : Calendar :=
  ⟨"S1", true, false, false, false, false, false, false, "20240101", "20241231"⟩

def dataEx1 : GTFSData :=
  { string_pool := ["T1", "stopA"]
    stop_times := [⟨0, some 25200, some 25260, 1, 1⟩]
    stop_times_by_stop_id := fun sid => if sid = 1 then [0] else []
    trips := fun s => if s = "T1" then some ⟨"R1", "S1", "T1"⟩ else none
    calendars := fun s => if s = "S1" then some calEx1 else none
    calendar_dates := fun _ => none }

theorem c6_service_active_decision_witness :
    ((0 : Int) ≤ 1 ∧ (1 : Int) ≤ 6)
    ∧ checkServiceActiveLogic dataEx1 "S1" "20240108" 1
        = specServiceActive dataEx1 "S1" "20240108" 1 :=
  ⟨⟨by decide, by decide⟩,
   c6_service_active_decision dataEx1 "S1" "20240108" 1 (by decide) (by decide)⟩

/-! ## Time-of-day parsing (gtfs_parser.cpp lines 38-73) -/

/-- The digit loop `while (*ptr >= '0' && *ptr <= '9') acc = acc*10 + (*ptr - '0')`. -/
def takeDigits : List Char → Nat → Nat × List Char
  | [], acc => (acc, [])
  | c :: rest, acc =>
    if c.isDigit then takeDigits rest (acc * 10 + (c.toNat - 48))
    else (acc, c :: rest)

/-- The space loop `while (*ptr == ' ') ptr++`. -/
def skipSpaces : List Char → List Char
  | [] => []
  | c :: rest => if c = ' ' then skipSpaces rest else c :: rest

/-- parse_time_seconds (gtfs_parser.cpp 38-73): `H:MM:SS` with unbounded
hour, -1 on malformed input, minutes and seconds must be at most 59.
Trailing characters after the seconds digits are accepted, as in the source. -/
def parse_time_seconds (time_str : String) : Int :=
  if time_str.isEmpty then -1 else
  match skipSpaces time_str.data with
  | [] => -1
  | c :: cs0 =>
    if ¬ c.isDigit then -1 else
    match takeDigits (c :: cs0) 0 with
    | (h, cs1) =>
      match cs1 with
      | ':' :: cs2 =>
        (match cs2 with
         | d :: _ =>
           if ¬ d.isDigit then -1 else
           match takeDigits cs2 0 with
           | (m, cs3) =>
             match cs3 with
             | ':' :: cs4 =>
               (match cs4 with
                | e :: _ =>
                  if ¬ e.isDigit then -1 else
                  match takeDigits cs4 0 with
                  | (s, _) =>
                    if 59 < m ∨ 59 < s then -1
                    else ((h * 3600 + m * 60 + s : Nat) : Int)
                | [] => -1)
             | _ => -1
         | [] => -1)
      | _ => -1

/-! ## GetDayOfWeek (addon.cpp lines 116-139) -/

/-- std::stoi prefix parse: skip spaces, optional sign, at least one digit;
`none` models the thrown exception that addon.cpp catches as -1. -/
def stoiOpt (cs : List Char) : Option Int :=
  match skipSpaces cs with
  | '-' :: rest =>
    (match rest with
     | c :: _ => if c.isDigit then some (-((takeDigits rest 0).1 : Int)) else none
     | [] => none)
  | '+' :: rest =>
    (match rest with
     | c :: _ => if c.isDigit then some ((takeDigits rest 0).1 : Int) else none
     | [] => none)
  | c :: rest => if c.isDigit then some ((takeDigits (c :: rest) 0).1 : Int) else none
  | [] => none

/-- Modelled from the spec: the weekday of a civil date, 0=Sunday ..
6=Saturday, proleptic Gregorian (Sakamoto's method).  addon.cpp obtains this
through mktime/localtime, external libc collaborators not under src/; the
month is normalized the way mktime normalizes tm_mon.  Normalization of
out-of-range day values and time_t range failures are not modelled — no
claim below depends on a weekday value, only on the -1 sentinel paths. -/
def civilWeekday (y m d : Int) : Int :=
  let yy := y + (m - 1).fdiv 12
  let mm := (m - 1).emod 12 + 1
  let t : List Int := [0, 3, 2, 5, 0, 3, 5, 1, 4, 6, 2, 4]
  let y2 := if mm < 3 then yy - 1 else yy
  (y2 + y2.fdiv 4 - y2.fdiv 100 + y2.fdiv 400 + t.getD (mm - 1).toNat 0 + d).emod 7

/-- GTFSAddon::GetDayOfWeek (addon.cpp 116-139): -1 unless the string has
exactly 8 characters and its YYYY, MM, DD substrings parse with std::stoi. -/
def getDayOfWeek (date_str : String) : Int :=
  if date_str.length ≠ 8 then -1
  else
    match stoiOpt (date_str.data.take 4),
          stoiOpt ((date_str.data.drop 4).take 2),
          stoiOpt ((date_str.data.drop 6).take 2) with
    | some y, some m, some d => civilWeekday y m d
    | _, _, _ => -1

/-! ## GetStopTimes (addon.cpp lines 655-841) -/

/-- A start_time/end_time filter value: GetStopTimes accepts either a number
or an `H:MM:SS` string (addon.cpp 684-693). -/
inductive TimeArg where
  | num : Int → TimeArg
  | str : String → TimeArg
  deriving DecidableEq

structure StopTimesQuery where
  trip_id : Option String
  stop_id : Option String
  start_time : Option TimeArg
  end_time : Option TimeArg
  date : Option String
  deriving DecidableEq

/-- Resolution of one time bound (addon.cpp 682-693): stays -1 when the
bound is missing, the value itself when numeric, parse_time_seconds when a
string. -/
def resolveTime : Option TimeArg → Int
  | none => -1
  | some (.num n) => n
  | some (.str s) => parse_time_seconds s

/-- has_time_window and the two resolved bounds (addon.cpp line 694). -/
def timeWindowOf (q : StopTimesQuery) : Bool × Int × Int :=
  let fs := resolveTime q.start_time
  let fe := resolveTime q.end_time
  (decide (fs ≠ -1) && decide (fe ≠ -1), fs, fe)

/-- One bound check: value present and inside [filter_start, filter_end]. -/
def timeInWindow (t : Option Int) (fs fe : Int) : Bool :=
  match t with
  | some v => decide (fs ≤ v) && decide (v ≤ fe)
  | none => false

/-- The per-row time filter (addon.cpp 722-726): with a window the row
passes iff its arrival or departure lies in range; otherwise it always
passes. -/
def timePass (hasW : Bool) (fs fe : Int) (st : StopTime) : Bool :=
  !hasW || timeInWindow st.arrival_time fs fe || timeInWindow st.departure_time fs fe

/-- The row-level time filter of a query exactly as GetStopTimes sets it up. -/
def rowTimePass (q : StopTimesQuery) (st : StopTime) : Bool :=
  timePass (timeWindowOf q).1 (timeWindowOf q).2.1 (timeWindowOf q).2.2 st

/-- Date-filter setup (addon.cpp 696-703): has_date only when GetDayOfWeek
did not return -1. -/
def dateInfoOf (q : StopTimesQuery) : Bool × String × Int :=
  match q.date with
  | some ds => (decide (getDayOfWeek ds ≠ -1), ds, getDayOfWeek ds)
  | none => (false, "", -1)

/-- The per-row date filter (addon.cpp 728-744): resolve the row's interned
trip_id back to a string, look the Trip up, and test
CheckServiceActiveLogic.  The per-query service_cache is dropped:
CheckServiceActiveLogic is a pure function of its arguments, so the memo
cannot change any result. -/
def datePass (data : GTFSData) (hasDate : Bool) (ds : String) (w : Int)
    (st : StopTime) : Bool :=
  if hasDate then
    match data.trips (poolGet data.string_pool st.trip_id) with
    | some t => checkServiceActiveLogic data t.service_id ds w
    | none => false
  else true

/-- The row-level date filter of a query as GetStopTimes sets it up. -/
def rowDatePass (data : GTFSData) (q : StopTimesQuery) (st : StopTime) : Bool :=
  datePass data (dateInfoOf q).1 (dateInfoOf q).2.1 (dateInfoOf q).2.2 st

/-- std::equal_range with the trip_id-only comparator (addon.cpp 712-716):
on an array partitioned with respect to that comparator it returns exactly
the maximal contiguous run of entries whose trip_id equals the target. -/
def equalRangeTrip (tid : Nat) (l : List StopTime) : List StopTime :=
  (l.dropWhile (fun st => decide (st.trip_id < tid))).takeWhile
    (fun st => decide (st.trip_id = tid))

/-- The per-row filters applied inside each candidate loop of GetStopTimes;
`tidOpt`/`sidOpt` are the resolved interned filter ids (`none` when that
filter is absent or already discharged by the candidate set). -/
def rowPass (data : GTFSData) (q : StopTimesQuery) (tidOpt sidOpt : Option Nat)
    (st : StopTime) : Bool :=
  (match tidOpt with
   | some tid => decide (st.trip_id = tid)
   | none => true)
  && (match sidOpt with
      | some fsid => decide (st.stop_id = fsid)
      | none => true)
  && rowTimePass q st
  && rowDatePass data q st

/-- The three candidate branches of GetStopTimes (addon.cpp 708-813):
binary-searched trip range, stop-id inverted index, or full scan. -/
def runQuery (data : GTFSData) (q : StopTimesQuery) (tidOpt sidOpt : Option Nat) :
    List StopTime :=
  match tidOpt with
  | some tid =>
    (equalRangeTrip tid data.stop_times).filter (rowPass data q none sidOpt)
  | none =>
    match sidOpt with
    | some fsid =>
      ((data.stop_times_by_stop_id fsid).filterMap
        (fun i => data.stop_times[i]?)).filter (rowPass data q none none)
    | none => data.stop_times.filter (rowPass data q none none)

/-- stop_id resolution (addon.cpp 673-679): a never-interned stop_id string
returns an empty result immediately. -/
def stopPhase (data : GTFSData) (q : StopTimesQuery) (tidOpt : Option Nat) :
    List StopTime :=
  match q.stop_id with
  | some ss =>
    let fsid := getId data.string_pool ss
    if fsid = NOT_FOUND then []
    else runQuery data q tidOpt (some fsid)
  | none => runQuery data q tidOpt none

/-- GTFSAddon::GetStopTimes (addon.cpp 655-841): trip_id resolution first
(a never-interned trip_id string returns an empty result immediately,
addon.cpp 666-671), then stop_id resolution, then the candidate scan. -/
def getStopTimes (data : GTFSData) (q : StopTimesQuery) : List StopTime :=
  match q.trip_id with
  | some ts =>
    let ftid := getId data.string_pool ts
    if ftid = NOT_FOUND then []
    else stopPhase data q (some ftid)
  | none => stopPhase data q none

/-- Reference for the spec's cross-validation sentence: a full linear scan
keeping exactly the rows whose trip_id string is the given one and which
pass the same per-row stop/time/date filters. -/
def fullScanByTrip (data : GTFSData) (q : StopTimesQuery) (ts : String) :
    List StopTime :=
  data.stop_times.filter (fun st =>
    decide (poolGet data.string_pool st.trip_id = ts)
    && (match q.stop_id with
        | some ss => decide (poolGet data.string_pool st.stop_id = ss)
        | none => true)
    && rowTimePass q st
    && rowDatePass data q st)

/-- Well-formedness of a loaded dataset: the string pool has no duplicates
(intern never stores a string twice), fewer than 2^32 strings are interned,
and every stop-time row's interned ids are valid pool indices (they were
produced by intern during the load). -/
structure WFData (d : GTFSData) : Prop where
  nodup : d.string_pool.Nodup
  pool_le : d.string_pool.length ≤ NOT_FOUND
  trip_lt : ∀ st ∈ d.stop_times, st.trip_id < d.string_pool.length
  stop_lt : ∀ st ∈ d.stop_times, st.stop_id < d.string_pool.length

theorem poolGet_mem (p : List String) (j : Nat) (hj : j < p.length) :
    poolGet p j ∈ p := by
  unfold poolGet
  rw [if_pos hj]
  simp only [List.getD_eq_getElem?_getD, List.getElem?_eq_getElem hj,
    Option.getD_some]
  exact List.getElem_mem hj

theorem strToId_poolGet (p : List String) (hnodup : p.Nodup) :
    ∀ j, j < p.length → strToId p (poolGet p j) = some j := by
  induction p with
  | nil => intro j hj; simp at hj
  | cons x rest ih =>
    intro j hj
    cases j with
    | zero => simp [poolGet, strToId]
    | succ j2 =>
      have hx : x ∉ rest := (List.nodup_cons.mp hnodup).1
      have hj2 : j2 < rest.length := by
        simpa using Nat.lt_of_succ_lt_succ hj
      have hpg : poolGet (x :: rest) (j2 + 1) = poolGet rest j2 := by
        unfold poolGet
        rw [if_pos hj, if_pos hj2]
        simp
      rw [hpg]
      have hmem : poolGet rest j2 ∈ rest := poolGet_mem rest j2 hj2
      have hxne : x ≠ poolGet rest j2 := fun hcontra => hx (hcontra ▸ hmem)
      simp only [strToId, if_neg hxne]
      rw [ih (List.nodup_cons.mp hnodup).2 j2 hj2]
      rfl

theorem poolGet_eq_iff (p : List String) (hnodup : p.Nodup) (j : Nat)
    (hj : j < p.length) (s : String) (i : Nat) (hi : strToId p s = some i) :
    (poolGet p j = s ↔ j = i) := by
  constructor
  · intro h
    have hself := strToId_poolGet p hnodup j hj
    rw [h, hi] at hself
    exact (Option.some_inj.mp hself).symm
  · intro h
    subst h
    obtain ⟨hlt, hgd⟩ := strToId_bound_getD p s _ hi
    unfold poolGet
    rw [if_pos hlt]
    exact hgd

theorem takeWhile_eq_filter_ge (tid : Nat) :
    ∀ l : List StopTime, List.Pairwise stLe l → (∀ b ∈ l, tid ≤ b.trip_id) →
      l.takeWhile (fun st => decide (st.trip_id = tid))
        = l.filter (fun st => decide (st.trip_id = tid)) := by
  intro l
  induction l with
  | nil => intro _ _; rfl
  | cons st rest ih =>
    intro hsort hge
    by_cases heq : st.trip_id = tid
    · rw [List.takeWhile_cons_of_pos (by simpa using heq),
          List.filter_cons_of_pos (by simpa using heq)]
      rw [ih hsort.of_cons (fun b hb => hge b (List.mem_cons_of_mem _ hb))]
    · have hgt : tid < st.trip_id :=
        lt_of_le_of_ne (hge st (List.mem_cons_self _ _)) (fun h => heq h.symm)
      rw [List.takeWhile_cons_of_neg (by simpa using heq)]
      symm
      rw [List.filter_eq_nil_iff]
      intro a ha
      rcases List.mem_cons.mp ha with h | h
      · subst h; simpa using heq
      · have hrel := List.rel_of_pairwise_cons hsort h
        unfold stLe at hrel
        simp only [decide_eq_true_eq]
        omega

theorem equalRangeTrip_eq_filter (tid : Nat) :
    ∀ l : List StopTime, List.Pairwise stLe l →
      equalRangeTrip tid l = l.filter (fun st => decide (st.trip_id = tid)) := by
  intro l
  induction l with
  | nil => intro _; rfl
  | cons st rest ih =>
    intro hsort
    by_cases hlt : st.trip_id < tid
    · have hstep : equalRangeTrip tid (st :: rest) = equalRangeTrip tid rest := by
        unfold equalRangeTrip
        rw [List.dropWhile_cons_of_pos (by simpa using hlt)]
      rw [hstep, ih hsort.of_cons,
        List.filter_cons_of_neg (by simp only [decide_eq_true_eq]; omega)]
    · by_cases heq : st.trip_id = tid
      · unfold equalRangeTrip
        rw [List.dropWhile_cons_of_neg (by simpa using hlt),
            List.takeWhile_cons_of_pos (by simpa using heq),
            List.filter_cons_of_pos (by simpa using heq)]
        have hge : ∀ b ∈ rest, tid ≤ b.trip_id := by
          intro b hb
          have hrel := List.rel_of_pairwise_cons hsort hb
          unfold stLe at hrel
          omega
        rw [takeWhile_eq_filter_ge tid rest hsort.of_cons hge]
      · have hgt : tid < st.trip_id := by omega
        unfold equalRangeTrip
        rw [List.dropWhile_cons_of_neg (by simpa using hlt),
            List.takeWhile_cons_of_neg (by simpa using heq)]
        symm
        rw [List.filter_eq_nil_iff]
        intro a ha
        rcases List.mem_cons.mp ha with h | h
        · subst h; simpa using heq
        · have hrel := List.rel_of_pairwise_cons hsort h
          unfold stLe at hrel
          simp only [decide_eq_true_eq]
          omega

theorem filtered_trip_seq_sorted (l : List StopTime) (tid : Nat)
    (hsort : List.Pairwise stLe l) (p2 : StopTime → Bool) :
    List.Pairwise (fun a b => a.stop_sequence ≤ b.stop_sequence)
      ((l.filter (fun st => decide (st.trip_id = tid))).filter p2) := by
  have hsub : List.Sublist
      ((l.filter (fun st => decide (st.trip_id = tid))).filter p2) l :=
    (List.filter_sublist _).trans (List.filter_sublist _)
  have hps := hsort.sublist hsub
  have htid : ∀ a ∈ (l.filter (fun st => decide (st.trip_id = tid))).filter p2,
      a.trip_id = tid := by
    intro a ha
    have ha2 := List.mem_of_mem_filter ha
    have := (List.mem_filter.mp ha2).2
    simpa using this
  rw [List.pairwise_iff_get] at hps ⊢
  intro i j hij
  have hrel := hps i j hij
  have hi : (((l.filter (fun st => decide (st.trip_id = tid))).filter p2).get i).trip_id
      = tid := htid _ (List.get_mem _ i.1 i.2)
  have hj : (((l.filter (fun st => decide (st.trip_id = tid))).filter p2).get j).trip_id
      = tid := htid _ (List.get_mem _ j.1 j.2)
  unfold stLe at hrel
  omega

/-- C1: for every loaded (well-formed, sorted) dataset and every filter with
a trip_id, GetStopTimes returns exactly the rows a full linear scan with the
same per-row filters returns, in ascending stop_sequence order; a trip_id
string never interned anywhere yields an empty result immediately. -/
theorem c1_query_by_trip_matches_full_scan (d : GTFSData) (q : StopTimesQuery)
    (ts : String) (hwf : WFData d)
    (hsort : List.Pairwise stLe d.stop_times) :
    getStopTimes d { q with trip_id := some ts } = fullScanByTrip d q ts
    ∧ List.Pairwise (fun a b => a.stop_sequence ≤ b.stop_sequence)
        (getStopTimes d { q with trip_id := some ts })
    ∧ (ts ∉ d.string_pool → getStopTimes d { q with trip_id := some ts } = []) := by
  obtain ⟨qtrip, qs, qstart, qend, qdate⟩ := q
  have hNF : NOT_FOUND = 4294967295 := rfl
  have hM : U32_MOD = 4294967296 := rfl
  cases hlook : strToId d.string_pool ts with
  | none =>
    have hq : getStopTimes d ⟨some ts, qs, qstart, qend, qdate⟩ = [] := by
      simp [getStopTimes, getId, hlook]
    have hscan : fullScanByTrip d ⟨qtrip, qs, qstart, qend, qdate⟩ ts = [] := by
      unfold fullScanByTrip
      rw [List.filter_eq_nil_iff]
      intro st hst
      have hmem : poolGet d.string_pool st.trip_id ∈ d.string_pool :=
        poolGet_mem _ _ (hwf.trip_lt st hst)
      have hne : poolGet d.string_pool st.trip_id ≠ ts := by
        intro hcontra
        exact (strToId_eq_none_iff _ _).mp hlook (hcontra ▸ hmem)
      simp [hne]
    rw [hq, hscan]
    exact ⟨rfl, List.Pairwise.nil, fun _ => rfl⟩
  | some i =>
    obtain ⟨hilt, _⟩ := strToId_bound_getD _ _ _ hlook
    have hple := hwf.pool_le
    have hid : getId d.string_pool ts = i := by
      simp only [getId, hlook]
      exact Nat.mod_eq_of_lt (by omega)
    have hine : ¬ i = NOT_FOUND := by omega
    have hmiss : ts ∉ d.string_pool →
        getStopTimes d ⟨some ts, qs, qstart, qend, qdate⟩ = [] := fun hnotin =>
      absurd ((strToId_eq_none_iff _ _).mpr hnotin) (by simp [hlook])
    have hqred : getStopTimes d ⟨some ts, qs, qstart, qend, qdate⟩
        = stopPhase d ⟨some ts, qs, qstart, qend, qdate⟩ (some i) := by
      simp [getStopTimes, hid, hine]
    have htripiff : ∀ st ∈ d.stop_times,
        (poolGet d.string_pool st.trip_id = ts ↔ st.trip_id = i) := by
      intro st hst
      exact poolGet_eq_iff _ hwf.nodup _ (hwf.trip_lt st hst) ts i hlook
    -- both query branches (with and without a stop_id filter) reduce to a
    -- double filter over the sorted array
    cases qs with
    | none =>
      have hq : getStopTimes d ⟨some ts, none, qstart, qend, qdate⟩
          = (d.stop_times.filter (fun st => decide (st.trip_id = i))).filter
              (rowPass d ⟨some ts, none, qstart, qend, qdate⟩ none none) := by
        rw [hqred]
        simp only [stopPhase, runQuery]
        rw [equalRangeTrip_eq_filter i d.stop_times hsort]
      refine ⟨?_, ?_, hmiss⟩
      · rw [hq]
        unfold fullScanByTrip
        rw [List.filter_filter]
        apply List.filter_congr
        intro st hst
        have h1 : decide (poolGet d.string_pool st.trip_id = ts)
            = decide (st.trip_id = i) := decide_eq_decide.mpr (htripiff st hst)
        simp only [rowPass, rowTimePass, rowDatePass, h1, Bool.true_and]
        rw [Bool.eq_iff_iff]
        simp only [Bool.and_eq_true]
        tauto
      · rw [hq]
        exact filtered_trip_seq_sorted _ _ hsort _
    | some ss =>
      cases hlook2 : strToId d.string_pool ss with
      | none =>
        have hq : getStopTimes d ⟨some ts, some ss, qstart, qend, qdate⟩ = [] := by
          rw [hqred]
          simp [stopPhase, getId, hlook2]
        have hscan : fullScanByTrip d ⟨qtrip, some ss, qstart, qend, qdate⟩ ts = [] := by
          unfold fullScanByTrip
          rw [List.filter_eq_nil_iff]
          intro st hst
          have hmem : poolGet d.string_pool st.stop_id ∈ d.string_pool :=
            poolGet_mem _ _ (hwf.stop_lt st hst)
          have hne : poolGet d.string_pool st.stop_id ≠ ss := by
            intro hcontra
            exact (strToId_eq_none_iff _ _).mp hlook2 (hcontra ▸ hmem)
          simp [hne]
        rw [hq, hscan]
        exact ⟨rfl, List.Pairwise.nil, fun _ => rfl⟩
      | some j =>
        obtain ⟨hjlt, _⟩ := strToId_bound_getD _ _ _ hlook2
        have hid2 : getId d.string_pool ss = j := by
          simp only [getId, hlook2]
          exact Nat.mod_eq_of_lt (by omega)
        have hjne : ¬ j = NOT_FOUND := by omega
        have hq : getStopTimes d ⟨some ts, some ss, qstart, qend, qdate⟩
            = (d.stop_times.filter (fun st => decide (st.trip_id = i))).filter
                (rowPass d ⟨some ts, some ss, qstart, qend, qdate⟩ none (some j)) := by
          rw [hqred]
          simp only [stopPhase, hid2, if_neg hjne, runQuery]
          rw [equalRangeTrip_eq_filter i d.stop_times hsort]
        refine ⟨?_, ?_, hmiss⟩
        · rw [hq]
          unfold fullScanByTrip
          rw [List.filter_filter]
          apply List.filter_congr
          intro st hst
          have h1 : decide (poolGet d.string_pool st.trip_id = ts)
              = decide (st.trip_id = i) := decide_eq_decide.mpr (htripiff st hst)
          have h2 : decide (poolGet d.string_pool st.stop_id = ss)
              = decide (st.stop_id = j) := decide_eq_decide.mpr
            (poolGet_eq_iff _ hwf.nodup _ (hwf.stop_lt st hst) ss j hlook2)
          simp only [rowPass, rowTimePass, rowDatePass, h1, h2, Bool.true_and]
          rw [Bool.eq_iff_iff]
          simp only [Bool.and_eq_true]
          tauto
        · rw [hq]
          exact filtered_trip_seq_sorted _ _ hsort _

theorem c1_query_by_trip_matches_full_scan_witness :
    (WFData dataEx1 ∧ List.Pairwise stLe dataEx1.stop_times)
    ∧ (getStopTimes dataEx1 ⟨some "T1", none, none, none, none⟩
         = fullScanByTrip dataEx1 ⟨none, none, none, none, none⟩ "T1"
       ∧ List.Pairwise (fun a b => a.stop_sequence ≤ b.stop_sequence)
           (getStopTimes dataEx1 ⟨some "T1", none, none, none, none⟩)
       ∧ ("T1" ∉ dataEx1.string_pool →
           getStopTimes dataEx1 ⟨some "T1", none, none, none, none⟩ = [])) :=
  ⟨⟨⟨by decide, by decide, by decide, by decide⟩, by decide⟩,
   c1_query_by_trip_matches_full_scan dataEx1 ⟨none, none, none, none, none⟩ "T1"
     ⟨by decide, by decide, by decide, by decide⟩ (by decide)⟩

/-! ## C7: behaviour of the date filter on unparseable dates -/

/-- C7 counterexample: with an unparseable date filter ("bad" is not an
8-character date, so GetDayOfWeek gives -1 and has_date stays false), the
query does NOT return zero matches — the date filter is silently ignored and
the matching row is returned. -/
theorem c7_counterexample :
    getStopTimes dataEx1 ⟨some "T1", none, none, none, some "bad"⟩
      = [⟨0, some 25200, some 25260, 1, 1⟩]
    ∧ getStopTimes dataEx1 ⟨some "T1", none, none, none, some "bad"⟩ ≠ [] := by
  constructor <;> decide

/-- C7 amended: a date filter whose value is unparseable or structurally
invalid (GetDayOfWeek = -1) is ignored: the query behaves exactly as if no
date filter had been supplied, and never raises (the query is a total
function). -/
theorem c7_unparseable_date_filter_ignored (d : GTFSData) (q : StopTimesQuery)
    (ds : String) (hbad : getDayOfWeek ds = -1) :
    getStopTimes d { q with date := some ds }
      = getStopTimes d { q with date := none } := by
  obtain ⟨qt, qs, qstart, qend, _qd⟩ := q
  have hrp : ∀ tid sid st,
      rowPass d ⟨qt, qs, qstart, qend, some ds⟩ tid sid st
        = rowPass d ⟨qt, qs, qstart, qend, none⟩ tid sid st := by
    intro tid sid st
    simp [rowPass, rowTimePass, rowDatePass, dateInfoOf, datePass, hbad,
      timeWindowOf]
  have hrq : ∀ tid sid,
      runQuery d ⟨qt, qs, qstart, qend, some ds⟩ tid sid
        = runQuery d ⟨qt, qs, qstart, qend, none⟩ tid sid := by
    intro tid sid
    cases tid with
    | some t =>
      unfold runQuery
      exact List.filter_congr (fun st _ => hrp none sid st)
    | none =>
      cases sid with
      | some s =>
        unfold runQuery
        exact List.filter_congr (fun st _ => hrp none none st)
      | none =>
        unfold runQuery
        exact List.filter_congr (fun st _ => hrp none none st)
  have hsp : ∀ tid, stopPhase d ⟨qt, qs, qstart, qend, some ds⟩ tid
      = stopPhase d ⟨qt, qs, qstart, qend, none⟩ tid := by
    intro tid
    cases qs with
    | none => simpa [stopPhase] using hrq tid none
    | some ss =>
      unfold stopPhase
      by_cases h : getId d.string_pool ss = NOT_FOUND
      · simp [h]
      · simp [h, hrq tid (some (getId d.string_pool ss))]
  cases qt with
  | none => simpa [getStopTimes] using hsp none
  | some ts =>
    unfold getStopTimes
    by_cases h : getId d.string_pool ts = NOT_FOUND
    · simp [h]
    · simp [h, hsp (some (getId d.string_pool ts))]

theorem c7_unparseable_date_filter_ignored_witness :
    getDayOfWeek "bad" = -1
    ∧ getStopTimes dataEx1 ⟨some "T1", none, none, none, some "bad"⟩
        = getStopTimes dataEx1 ⟨some "T1", none, none, none, none⟩ :=
  ⟨by decide,
   c7_unparseable_date_filter_ignored dataEx1
     ⟨some "T1", none, none, none, none⟩ "bad" (by decide)⟩

/-! ## C10: when the time-window filter applies -/

theorem mem_takeDigits_snd : ∀ (cs : List Char) (acc : Nat) (c : Char),
    c ∈ (takeDigits cs acc).2 → c ∈ cs := by
  intro cs
  induction cs with
  | nil => intro acc c h; simp [takeDigits] at h
  | cons d rest ih =>
    intro acc c h
    by_cases hd : d.isDigit = true
    · simp only [takeDigits, if_pos hd] at h
      exact List.mem_cons_of_mem _ (ih _ c h)
    · simp only [takeDigits, if_neg hd] at h
      exact h

theorem mem_skipSpaces : ∀ (cs : List Char) (c : Char),
    c ∈ skipSpaces cs → c ∈ cs := by
  intro cs
  induction cs with
  | nil => intro c h; simp [skipSpaces] at h
  | cons d rest ih =>
    intro c h
    by_cases hd : d = ' '
    · simp only [skipSpaces, if_pos hd] at h
      exact List.mem_cons_of_mem _ (ih c h)
    · simp only [skipSpaces, if_neg hd] at h
      exact h

/-- A string with no colon at all can never parse as H:MM:SS. -/
theorem parse_time_seconds_no_colon (s : String)
    (h : (':' : Char) ∉ s.data) : parse_time_seconds s = -1 := by
  unfold parse_time_seconds
  split
  · rfl
  · split
    · rfl
    next c cs0 hsk =>
      split
      · rfl
      next hd =>
        rcases h2 : takeDigits (c :: cs0) 0 with ⟨h1, cs1⟩
        have hc : (':' : Char) ∉ cs1 := by
          intro hx
          apply h
          apply mem_skipSpaces s.data
          rw [hsk]
          apply mem_takeDigits_snd (c :: cs0) 0
          rw [h2]
          exact hx
        cases cs1 with
        | nil => rfl
        | cons c2 cs2 =>
          split
          next s2 snd2 heq =>
            have hsnd : snd2 = c2 :: cs2 := (congrArg Prod.snd heq).symm
            subst hsnd
            split
            next cs3 heq2 =>
              exact absurd (heq2.symm ▸ List.mem_cons_self ':' cs3) hc
            next => rfl

/-- C10: the time-window filter applies only when both start_time and
end_time are supplied and resolve to something other than -1: a missing
bound resolves to -1, a numeric bound passes through as-is (so -1 disables
the window), a string bound without a colon fails to parse (to -1), and
whenever either resolved bound is -1 every candidate row passes the time
filter; with both bounds valid the row must have arrival or departure in
the inclusive window. -/
theorem c10_time_window_semantics (q : StopTimesQuery) (st : StopTime) :
    ((timeWindowOf q).1 = true ↔
       (resolveTime q.start_time ≠ -1 ∧ resolveTime q.end_time ≠ -1))
    ∧ (resolveTime q.start_time = -1 ∨ resolveTime q.end_time = -1 →
        rowTimePass q st = true)
    ∧ (q.start_time = none → resolveTime q.start_time = -1)
    ∧ (q.end_time = none → resolveTime q.end_time = -1)
    ∧ (∀ n : Int, resolveTime (some (TimeArg.num n)) = n)
    ∧ (∀ s : String, (':' : Char) ∉ s.data →
        resolveTime (some (TimeArg.str s)) = -1)
    ∧ ((timeWindowOf q).1 = true →
        rowTimePass q st
          = (timeInWindow st.arrival_time (resolveTime q.start_time)
               (resolveTime q.end_time)
             || timeInWindow st.departure_time (resolveTime q.start_time)
                  (resolveTime q.end_time))) := by
  refine ⟨?_, ?_, ?_, ?_, ?_, ?_, ?_⟩
  · simp [timeWindowOf]
  · intro hdis
    rcases hdis with hs | he
    · simp [rowTimePass, timePass, timeWindowOf, hs]
    · simp [rowTimePass, timePass, timeWindowOf, he]
  · intro h; simp [h, resolveTime]
  · intro h; simp [h, resolveTime]
  · intro n; rfl
  · intro s hs
    simpa [resolveTime] using parse_time_seconds_no_colon s hs
  · intro hw
    simp only [rowTimePass, timePass, timeWindowOf] at hw ⊢
    simp only [Bool.and_eq_true, decide_eq_true_eq] at hw
    simp [hw.1, hw.2]

theorem c10_time_window_semantics_witness :
    ((resolveTime (some (TimeArg.str "x")) = -1
       ∨ resolveTime (none : Option TimeArg) = -1)
     ∧ ((':' : Char) ∉ ("nope" : String).data))
    ∧ (rowTimePass ⟨none, none, some (TimeArg.str "x"), none, none⟩ stEx1 = true
       ∧ resolveTime (some (TimeArg.str "nope")) = -1) :=
  ⟨⟨Or.inl (by decide), by decide⟩,
   (c10_time_window_semantics ⟨none, none, some (TimeArg.str "x"), none, none⟩
      stEx1).2.1 (Or.inl (by decide)),
   (c10_time_window_semantics ⟨none, none, some (TimeArg.str "x"), none, none⟩
      stEx1).2.2.2.2.2.1 "nope" (by decide)⟩


/-! ## Realtime stop-time-update decoding (gtfs_realtime.cpp 128-156)

The nanopb-decoded wire message exposes explicit presence flags
(`has_arrival`, `has_delay`, ...); gtfs_realtime.cpp maps them to sentinel
values in RealtimeStopTimeUpdate (GTFS.h 190-205), which
GetRealtimeTripUpdates (addon.cpp 445-461) maps back to value-or-null. -/

structure PbEvent where
  has_delay : Bool
  delay : Int
  has_time : Bool
  time : Int
  has_uncertainty : Bool
  uncertainty : Int
  deriving DecidableEq

structure PbStu where
  has_arrival : Bool
  arrival : PbEvent
  has_departure : Bool
  departure : PbEvent
  deriving DecidableEq

/-- Sentinel for an absent delay (INT32_MIN, GTFS.h lines 196/200). -/
def ABSENT_DELAY : Int := -2147483648

/-- Sentinel for an absent time (GTFS.h lines 197/201). -/
def ABSENT_TIME : Int := -1

/-- Sentinel for an absent uncertainty (GTFS.h lines 198/202). -/
def ABSENT_UNCERTAINTY : Int := -1

/-- The decoded (delay, time, uncertainty) of the arrival sub-message
(gtfs_realtime.cpp 128-141): per-field sentinel when the sub-message is
present but the field is not, all three sentinels when it is absent. -/
def decodeArrival (pb : PbStu) : Int × Int × Int :=
  if pb.has_arrival then
    ((if pb.arrival.has_delay then pb.arrival.delay else ABSENT_DELAY),
     (if pb.arrival.has_time then pb.arrival.time else ABSENT_TIME),
     (if pb.arrival.has_uncertainty then pb.arrival.uncertainty
      else ABSENT_UNCERTAINTY))
  else (ABSENT_DELAY, ABSENT_TIME, ABSENT_UNCERTAINTY)

/-- The departure counterpart (gtfs_realtime.cpp 143-156). -/
def decodeDeparture (pb : PbStu) : Int × Int × Int :=
  if pb.has_departure then
    ((if pb.departure.has_delay then pb.departure.delay else ABSENT_DELAY),
     (if pb.departure.has_time then pb.departure.time else ABSENT_TIME),
     (if pb.departure.has_uncertainty then pb.departure.uncertainty
      else ABSENT_UNCERTAINTY))
  else (ABSENT_DELAY, ABSENT_TIME, ABSENT_UNCERTAINTY)

/-- The six time fields of the resulting RealtimeStopTimeUpdate record. -/
structure RtStuTimes where
  arrival_delay : Int
  arrival_time : Int
  arrival_uncertainty : Int
  departure_delay : Int
  departure_time : Int
  departure_uncertainty : Int
  deriving DecidableEq

def decodeStuTimes (pb : PbStu) : RtStuTimes :=
  ⟨(decodeArrival pb).1, (decodeArrival pb).2.1, (decodeArrival pb).2.2,
   (decodeDeparture pb).1, (decodeDeparture pb).2.1, (decodeDeparture pb).2.2⟩

/-- addon.cpp 445-446: delay is surfaced unless it is the sentinel. -/
def jsDelay (v : Int) : Option Int := if v ≠ ABSENT_DELAY then some v else none

/-- addon.cpp 448-449: time is surfaced unless it is the sentinel. -/
def jsTime (v : Int) : Option Int := if v ≠ ABSENT_TIME then some v else none

/-- addon.cpp 451-452: uncertainty is surfaced unless it is the sentinel. -/
def jsUncertainty (v : Int) : Option Int :=
  if v ≠ ABSENT_UNCERTAINTY then some v else none

/-- C9: an arrival sub-message present with only `time` set yields
delay = ABSENT, uncertainty = ABSENT and time = the decoded value; no
arrival sub-message at all yields all three ABSENT; the same for the
departure sub-message; and in both cases ABSENT is distinguishable from a
present value of zero (the sentinel surfaces as null while a present zero
surfaces as 0). -/
theorem c9_realtime_presence_mapping (pb : PbStu) :
    (pb.has_arrival = true → pb.arrival.has_time = true →
     pb.arrival.has_delay = false → pb.arrival.has_uncertainty = false →
       (decodeStuTimes pb).arrival_delay = ABSENT_DELAY
       ∧ (decodeStuTimes pb).arrival_uncertainty = ABSENT_UNCERTAINTY
       ∧ (decodeStuTimes pb).arrival_time = pb.arrival.time)
    ∧ (pb.has_arrival = false →
       (decodeStuTimes pb).arrival_delay = ABSENT_DELAY
       ∧ (decodeStuTimes pb).arrival_time = ABSENT_TIME
       ∧ (decodeStuTimes pb).arrival_uncertainty = ABSENT_UNCERTAINTY)
    ∧ (pb.has_departure = true → pb.departure.has_time = true →
       pb.departure.has_delay = false → pb.departure.has_uncertainty = false →
       (decodeStuTimes pb).departure_delay = ABSENT_DELAY
       ∧ (decodeStuTimes pb).departure_uncertainty = ABSENT_UNCERTAINTY
       ∧ (decodeStuTimes pb).departure_time = pb.departure.time)
    ∧ (pb.has_departure = false →
       (decodeStuTimes pb).departure_delay = ABSENT_DELAY
       ∧ (decodeStuTimes pb).departure_time = ABSENT_TIME
       ∧ (decodeStuTimes pb).departure_uncertainty = ABSENT_UNCERTAINTY)
    ∧ (jsDelay ABSENT_DELAY = none ∧ jsTime ABSENT_TIME = none
       ∧ jsUncertainty ABSENT_UNCERTAINTY = none)
    ∧ (pb.has_arrival = true → pb.arrival.has_delay = true →
        pb.arrival.delay = 0 →
        jsDelay (decodeStuTimes pb).arrival_delay = some 0)
    ∧ (pb.has_arrival = true → pb.arrival.has_time = true →
        pb.arrival.time = 0 →
        jsTime (decodeStuTimes pb).arrival_time = some 0)
    ∧ (pb.has_arrival = true → pb.arrival.has_uncertainty = true →
        pb.arrival.uncertainty = 0 →
        jsUncertainty (decodeStuTimes pb).arrival_uncertainty = some 0)
    ∧ (pb.has_departure = true → pb.departure.has_delay = true →
        pb.departure.delay = 0 →
        jsDelay (decodeStuTimes pb).departure_delay = some 0)
    ∧ (pb.has_departure = true → pb.departure.has_time = true →
        pb.departure.time = 0 →
        jsTime (decodeStuTimes pb).departure_time = some 0)
    ∧ (pb.has_departure = true → pb.departure.has_uncertainty = true →
        pb.departure.uncertainty = 0 →
        jsUncertainty (decodeStuTimes pb).departure_uncertainty = some 0) := by
  refine ⟨?_, ?_, ?_, ?_, ⟨by decide, by decide, by decide⟩, ?_, ?_, ?_, ?_, ?_, ?_⟩ <;>
    intro h1 <;>
    first
      | (intro h2 h3 h4
         simp [decodeStuTimes, decodeArrival, decodeDeparture, h1, h2, h3, h4])
      | (intro h2 h3
         simp [decodeStuTimes, decodeArrival, decodeDeparture, jsDelay, jsTime,
           jsUncertainty, h1, h2, h3, ABSENT_DELAY, ABSENT_TIME,
           ABSENT_UNCERTAINTY])
      | simp [decodeStuTimes, decodeArrival, decodeDeparture, h1]

def pbEx : PbStu :=
  ⟨true, ⟨false, 5, true, 0, false, 7⟩, false, ⟨false, 0, false, 0, false, 0⟩⟩

theorem c9_realtime_presence_mapping_witness :
    (pbEx.has_arrival = true ∧ pbEx.arrival.has_time = true
      ∧ pbEx.arrival.has_delay = false ∧ pbEx.arrival.has_uncertainty = false
      ∧ pbEx.has_departure = false)
    ∧ ((decodeStuTimes pbEx).arrival_delay = ABSENT_DELAY
       ∧ (decodeStuTimes pbEx).arrival_uncertainty = ABSENT_UNCERTAINTY
       ∧ (decodeStuTimes pbEx).arrival_time = pbEx.arrival.time
       ∧ (decodeStuTimes pbEx).departure_delay = ABSENT_DELAY
       ∧ (decodeStuTimes pbEx).departure_time = ABSENT_TIME
       ∧ (decodeStuTimes pbEx).departure_uncertainty = ABSENT_UNCERTAINTY
       ∧ jsTime (decodeStuTimes pbEx).arrival_time = some 0
       ∧ jsDelay ABSENT_DELAY = none) := by
  have h := c9_realtime_presence_mapping pbEx
  refine ⟨⟨rfl, rfl, rfl, rfl, rfl⟩,
    (h.1 rfl rfl rfl rfl).1, (h.1 rfl rfl rfl rfl).2.1, (h.1 rfl rfl rfl rfl).2.2,
    (h.2.2.2.1 rfl).1, (h.2.2.2.1 rfl).2.1, (h.2.2.2.1 rfl).2.2,
    h.2.2.2.2.2.2.1 rfl rfl rfl,
    h.2.2.2.2.1.1⟩

end QDFGTFS
